import Mathlib

/-! # docker-memory-playground: the `/entity/{count}` handler

A shallow embedding of `src/main/main.go` (`bToMb`, `printStats`,
`createEntities`) and of `Reverse` from `src/main/main_test.go`, together
with the pieces of the Go standard library the handler calls with constant
arguments: `strconv.ParseInt(s, 10, 32)`, `strconv.Itoa`, `make([]Entity, n)`
and `json.NewEncoder(w).Encode` of a string.

Conventions.
* A Go `string` is a Lean `String` (UTF-8 text); `[]byte(s)` is `goBytes s`
  and `[]rune(s)` is `s.data`.
* Machine integers are `Nat`/`Int` with the wrap-around written out
  (`% 2 ^ 64`, `wrapInt64`).
* The layout is the 64-bit one (`int` is 64 bits wide, a pointer is 8 bytes).
* The heap is unbounded: an allocation that passes the length checks of
  `makeslice` succeeds.
-/

namespace MemoryPlayground

/-! ## Go strings -/

/-- The conversion `[]byte(s)`: the UTF-8 bytes of `s`, as numbers below 256. -/
def goBytes (s : String) : List Nat :=
  s.toUTF8.data.toList.map UInt8.toNat

/-! ## `strconv.ParseInt(s, 10, 32)`

The handler calls `strconv.ParseInt(params["count"], 10, 32)` and drops the
error. The library code is embedded for these constant arguments, `base = 10`
and `bitSize = 32`; the branches for `base == 0` (prefixes and underscores) and
`bitSize == 0` cannot be reached. The loop of `ParseUint` reads

    for _, c := range []byte(s) {
        var d byte
        switch {
        case c == '_' && base0: ...
        case '0' <= c && c <= '9':
            d = c - '0'
        case 'a' <= lower(c) && lower(c) <= 'z':
            d = lower(c) - 'a' + 10
        default:
            return 0, syntaxError(fnParseUint, s0)
        }
        if d >= byte(base) {
            return 0, syntaxError(fnParseUint, s0)
        }
        if n >= cutoff {
            return maxVal, rangeError(fnParseUint, s0)
        }
        n *= uint64(base)
        n1 := n + uint64(d)
        if n1 < n || n1 > maxVal {
            return maxVal, rangeError(fnParseUint, s0)
        }
        n = n1
    }
    return n, nil

and `ParseInt` picks off the sign, calls `ParseUint`, returns `0` with the error
unless the error is `ErrRange`, and then checks the signed range:

    cutoff := uint64(1 << uint(bitSize-1))
    if !neg && un >= cutoff {
        return int64(cutoff - 1), rangeError(fnParseInt, s0)
    }
    if neg && un > cutoff {
        return -int64(cutoff), rangeError(fnParseInt, s0)
    }
    n := int64(un)
    if neg {
        n = -n
    }
    return n, nil
-/

/-- The `Err` field of a `*strconv.NumError`. -/
inductive NumError where
  | ErrSyntax
  | ErrRange
deriving DecidableEq, Repr

/-- The constant `base` argument of the call in `createEntities`. -/
def base : Nat := 10

/-- The constant `bitSize` argument of the call in `createEntities`. -/
def bitSize : Nat := 32

/-- The constant `maxUint64 = 1<<64 - 1`. -/
def maxUint64 : Nat := 2 ^ 64 - 1

/-- The helper `lower(c) = c | ('x' - 'X')` of `strconv`. -/
def lower (c : Nat) : Nat := c ||| 32

/-- The `switch` of the `ParseUint` loop that turns a byte into a digit value:
`'0'..'9'` map to `0..9`, letters to `10..35`, anything else is no digit
(the `'_'` case needs `base == 0` and is not reachable with `base = 10`). -/
def digitOf (c : Nat) : Option Nat :=
  if 48 ≤ c ∧ c ≤ 57 then some (c - 48)
  else if 97 ≤ lower c ∧ lower c ≤ 122 then some (lower c - 97 + 10)
  else none

/-- The smallest number such that `cutoff * base > maxUint64`. -/
def cutoff : Nat := maxUint64 / base + 1

/-- The largest value of `bitSize` bits: `uint64(1)<<uint(bitSize) - 1`. -/
def maxVal : Nat := 2 ^ bitSize - 1

/-- The `for _, c := range []byte(s)` loop of `strconv.ParseUint`, with `n` the
accumulator. Every `return` of the loop body is kept, in the order of the
source: a byte that is no digit of the base is a syntax error; an overflow
of the 64-bit accumulator or of `maxVal` returns `maxVal` with a range error
at once, without looking at the bytes that follow. -/
def parseUintLoop : List Nat → Nat → Nat × Option NumError
  | [], n => (n, none)
  | c :: cs, n =>
    match digitOf c with
    | none => (0, some NumError.ErrSyntax)
    | some d =>
      if d ≥ base then (0, some NumError.ErrSyntax)
      else if n ≥ cutoff then (maxVal, some NumError.ErrRange)
      else
        let n0 := (n * base) % 2 ^ 64
        let n1 := (n0 + d) % 2 ^ 64
        if n1 < n0 ∨ n1 > maxVal then (maxVal, some NumError.ErrRange)
        else parseUintLoop cs n1

/-- The call `strconv.ParseUint(s, 10, 32)` on the bytes of `s`: the value and
the error (`none` is `nil`). -/
def ParseUint (s : List Nat) : Nat × Option NumError :=
  if s = [] then (0, some NumError.ErrSyntax)
  else parseUintLoop s 0

/-- The call `strconv.ParseInt(s, 10, 32)` on the bytes of `s`: the `int64`
value and the error (`none` is `nil`). A syntax error returns `0`; a range
error returns the nearest bound of the 32-bit range. -/
def ParseInt (s : List Nat) : Int × Option NumError :=
  match s with
  | [] => (0, some NumError.ErrSyntax)
  | c :: rest =>
    -- Pick off leading sign.
    let neg : Bool := c = 45
    let s1 : List Nat := if c = 43 then rest else if c = 45 then rest else c :: rest
    -- Convert unsigned and check range.
    let r := ParseUint s1
    let un : Nat := r.1
    if r.2 = some NumError.ErrSyntax then (0, some NumError.ErrSyntax)
    else
      let cut : Nat := 2 ^ (bitSize - 1)
      if neg = false ∧ un ≥ cut then (((cut - 1 : Nat) : Int), some NumError.ErrRange)
      else if neg = true ∧ un > cut then (-((cut : Nat) : Int), some NumError.ErrRange)
      else if neg then (-((un : Nat) : Int), none)
      else (((un : Nat) : Int), none)

/-! ## `strconv.Itoa` -/

/-- The call `strconv.Itoa(i)`: the decimal rendering of `i`, with a leading
`-` for a negative number. -/
def Itoa (i : Int) : String :=
  if i < 0 then "-" ++ Nat.repr i.natAbs else Nat.repr i.toNat

/-! ## `encoding/json`: encoding a string -/

/-- The table `hex = "0123456789abcdef"` of `encoding/json`. -/
def hexDigit (n : Nat) : Char :=
  "0123456789abcdef".data.getD n '0'

/-- The escape `\u00XY` of the ASCII byte `b`. -/
def escapeU00 (b : Nat) : String :=
  String.mk [Char.ofNat 92, 'u', '0', '0', hexDigit (b / 16), hexDigit (b % 16)]

/-- One step of the loop of `appendString` of `encoding/json` with
`escapeHTML = true`, the setting of `json.NewEncoder`: what is appended for
the character `c` of valid UTF-8 text. -/
def escapeRune (c : Char) : String :=
  let b := c.toNat
  if b < 128 then
    -- htmlSafeSet: printable ASCII except the five characters below
    if 32 ≤ b ∧ b ≠ 34 ∧ b ≠ 38 ∧ b ≠ 60 ∧ b ≠ 62 ∧ b ≠ 92 then String.singleton c
    else if b = 92 ∨ b = 34 then String.mk [Char.ofNat 92, c]
    else if b = 8 then String.mk [Char.ofNat 92, 'b']
    else if b = 12 then String.mk [Char.ofNat 92, 'f']
    else if b = 10 then String.mk [Char.ofNat 92, 'n']
    else if b = 13 then String.mk [Char.ofNat 92, 'r']
    else if b = 9 then String.mk [Char.ofNat 92, 't']
    else escapeU00 b
  else if b = 8232 then String.mk [Char.ofNat 92, 'u', '2', '0', '2', '8']
  else if b = 8233 then String.mk [Char.ofNat 92, 'u', '2', '0', '2', '9']
  else String.singleton c

/-- The JSON encoding of a Go string: the quoted, escaped text. -/
def jsonString (s : String) : String :=
  "\"" ++ String.join (s.data.map escapeRune) ++ "\""

/-- The recorded calls on an `http.ResponseWriter`: the status given to
`WriteHeader`, if it was called, and the chunks given to `Write`, in order. -/
structure ResponseWriter where
  status : Option Nat
  body : List String
deriving DecidableEq, Repr

/-- The call `json.NewEncoder(w).Encode(v)` for a string `v`: one `Write` of the
JSON text followed by a newline. -/
def Encode (w : ResponseWriter) (v : String) : ResponseWriter :=
  { w with body := w.body ++ [jsonString v ++ "\n"] }

/-! ## `main.go` -/

/-- A `float64`, by its bit pattern; the program never builds one. -/
structure Float64 where
  bits : Nat
deriving DecidableEq, Repr

/-- The type `Entity` (lines 16-19). The zero value has the empty string and
the nil slice. -/
structure Entity where
  ID : String
  Payload : List Float64
deriving DecidableEq, Repr

/-- The zero value of `Entity`. -/
def Entity.zero : Entity := { ID := "", Payload := [] }

/-- The size of a pointer and of an `int` in bytes on the 64-bit layout. -/
def ptrSize : Nat := 8

/-- The size of a string header: data pointer and length. -/
def sizeofString : Nat := 2 * ptrSize

/-- The size of a slice header: data pointer, length and capacity. -/
def sizeofSlice : Nat := 3 * ptrSize

/-- The constant `unsafe.Sizeof(entities[0])`: the shallow size of one `Entity`. -/
def sizeofEntity : Nat := sizeofString + sizeofSlice

/-- The conversion of a mathematical integer to the two's complement `int` of
64 bits. -/
def wrapInt64 (x : Int) : Int :=
  (x + 2 ^ 63) % 2 ^ 64 - 2 ^ 63

/-- The function `bToMb` (lines 23-25) on `uint64`: each division is taken
modulo `2 ^ 64`. -/
def bToMb (b : Nat) : Nat :=
  ((b / 1024) % 2 ^ 64 / 1024) % 2 ^ 64

/-- The fields of `runtime.MemStats` that `printStats` reads. -/
structure MemStats where
  Alloc : Nat
  HeapAlloc : Nat
  TotalAlloc : Nat
  StackSys : Nat
  HeapSys : Nat
  Sys : Nat
  NumGC : Nat
deriving DecidableEq, Repr

/-- The state of the process that the handler touches: the package variable
`entities` (line 21), the text written to standard output, one entry for
each `fmt.Print*` call, and the number of `runtime.GC()` calls made. -/
structure World where
  entities : List Entity
  stdout : List String
  gcCalls : Nat
deriving DecidableEq, Repr

/-- The call `fmt.Println(s)` for a string. -/
def Println (s : String) (σ : World) : World :=
  { σ with stdout := σ.stdout ++ [s ++ "\n"] }

/-- The call `fmt.Printf(format, v)` once formatted to `text`. -/
def Printf (text : String) (σ : World) : World :=
  { σ with stdout := σ.stdout ++ [text] }

/-- The call `runtime.GC()`. -/
def GC (σ : World) : World :=
  { σ with gcCalls := σ.gcCalls + 1 }

/-- The function `printStats` (lines 27-37); `m` is what
`runtime.ReadMemStats` fills in. -/
def printStats (m : MemStats) (σ : World) : World :=
  let σ := Printf ("Alloc = " ++ Nat.repr (bToMb m.Alloc) ++ " MiB") σ
  let σ := Printf ("\tHeapAlloc = " ++ Nat.repr (bToMb m.HeapAlloc) ++ " MiB") σ
  let σ := Printf ("\tTotalAlloc = " ++ Nat.repr (bToMb m.TotalAlloc) ++ " MiB") σ
  let σ := Printf ("\tStackSys = " ++ Nat.repr (bToMb m.StackSys) ++ " MiB") σ
  let σ := Printf ("\tHeapSys = " ++ Nat.repr (bToMb m.HeapSys) ++ " MiB") σ
  let σ := Printf ("\tSys = " ++ Nat.repr (bToMb m.Sys) ++ " MiB") σ
  Printf ("\tNumGC = " ++ Nat.repr m.NumGC ++ "\n") σ

/-- The constant `maxAlloc` of the runtime on the 64-bit layout. -/
def maxAlloc : Nat := 2 ^ 48

/-- The expression `make([]Entity, len)`: `none` is the run-time panic
`makeslice: len out of range`, raised for a negative length and for a size
above `maxAlloc`; otherwise `len` zero values. -/
def makeslice (len : Int) : Option (List Entity) :=
  if len < 0 ∨ sizeofEntity * len.toNat > maxAlloc then none
  else some (List.replicate len.toNat Entity.zero)

/-- How a call of the handler ends. -/
inductive Outcome where
  | returned
  | panicked (msg : String)
deriving DecidableEq, Repr

/-- The local variables of `createEntities` when it ends: `amount`, the local
slice `entities` declared at line 53 (which shadows the package variable)
and `allocatedBytes`, each `none` when its declaration was not reached. -/
structure Locals where
  amount : Int
  entities : Option (List Entity)
  allocatedBytes : Option Int
deriving DecidableEq, Repr

/-- What a call of `createEntities` leaves behind. -/
structure Result where
  outcome : Outcome
  locals : Locals
  w : ResponseWriter
  world : World
deriving DecidableEq, Repr

/-- The handler `createEntities` (lines 39-61). `count` is `params["count"]`,
`m` is what `runtime.ReadMemStats` fills in inside `printStats`, `w` is the
response writer and `σ` the state of the process at the call. -/
def createEntities (m : MemStats) (w : ResponseWriter) (count : String) (σ : World) : Result :=
  let σ := Println "called createEntities" σ
  -- clear the array
  let σ := { σ with entities := [] }
  let σ := GC σ
  let σ := Println "Creating data" σ
  let amount : Int := (ParseInt (goBytes count)).1
  if amount = 0 then
    let σ := Println "Error: amount was 0" σ
    { outcome := Outcome.returned,
      locals := { amount := amount, entities := none, allocatedBytes := none },
      w := w, world := σ }
  else
    match makeslice amount with
    | none =>
      { outcome := Outcome.panicked "runtime error: makeslice: len out of range",
        locals := { amount := amount, entities := none, allocatedBytes := none },
        w := w, world := σ }
    | some entities =>
      let σ := Println "Created data" σ
      let allocatedBytes : Int := wrapInt64 (wrapInt64 (sizeofEntity : Nat) * wrapInt64 amount)
      let w := Encode w ("allocated: " ++ Itoa allocatedBytes ++ " bytes")
      let σ := GC σ
      let σ := printStats m σ
      { outcome := Outcome.returned,
        locals := { amount := amount, entities := some entities,
                    allocatedBytes := some allocatedBytes },
        w := w, world := σ }

/-! ## `main_test.go` -/

/-- The parallel assignment `r[i], r[j] = r[j], r[i]`: `none` is the index
panic of an index outside `0 .. len(r)-1`. -/
def swapAt (r : List Char) (i j : Int) : Option (List Char) :=
  if 0 ≤ i ∧ i < r.length ∧ 0 ≤ j ∧ j < r.length then
    some ((r.set i.toNat (r.getD j.toNat 'A')).set j.toNat (r.getD i.toNat 'A'))
  else none

/-- The loop `for i, j := 0, len(r)-1; i < len(r)/2; i, j = i+1, j-1` of
`Reverse`, from the state `(r, i, j)`. -/
def reverseLoop (r : List Char) (i j : Int) : Option (List Char) :=
  if i < (r.length : Int) / 2 then
    match h : swapAt r i j with
    | none => none
    | some r1 => reverseLoop r1 (i + 1) (j - 1)
  else some r
termination_by ((r.length : Int) / 2 - i).toNat
decreasing_by
  have hlen : r1.length = r.length := by
    unfold swapAt at h
    split at h
    · cases h; simp
    · cases h
  rw [hlen]
  omega

/-- The function `Reverse` (main_test.go, lines 36-42): `none` is a run-time
panic. -/
def Reverse (s : String) : Option String :=
  let r := s.data
  (reverseLoop r 0 ((r.length : Int) - 1)).map String.mk

/-! ## Decimal literals, for stating the claims -/

/-- A byte is one of the ASCII digits `'0'..'9'`. -/
def isDigitByte (c : Nat) : Bool := decide (48 ≤ c ∧ c ≤ 57)

/-- The number read from a run of digit bytes, continuing from `n`. -/
def byteVal (n : Nat) (ds : List Nat) : Nat :=
  ds.foldl (fun a c => a * 10 + (c - 48)) n

/-- The bytes of one character, as numbers. -/
def charBytes (c : Char) : List Nat := (String.utf8EncodeChar c).map UInt8.toNat


/-- The number a run of decimal digits denotes. -/
def decimalValue (ds : List Char) : Nat :=
  ds.foldl (fun a c => a * 10 + (c.toNat - 48)) 0

/-- The string begins with the sign `-`. -/
def isNegative (s : String) : Bool :=
  s.data.head? = some '-'

/-- The string without its leading sign `+` or `-`, if it has one. -/
def unsignedPart (s : String) : List Char :=
  match s.data with
  | [] => []
  | c :: rest => if c = '+' ∨ c = '-' then rest else c :: rest

/-- The run of decimal digits that follows the optional sign. -/
def leadingDigits (s : String) : List Char :=
  (unsignedPart s).takeWhile Char.isDigit

/-- The integer a base-10 literal denotes, of any size: an optional sign
followed by one or more decimal digits. `none` for every other string. -/
def literalValue (s : String) : Option Int :=
  if unsignedPart s ≠ [] ∧ (unsignedPart s).all Char.isDigit = true then
    if isNegative s then some (-(decimalValue (unsignedPart s) : Int))
    else some (decimalValue (unsignedPart s) : Int)
  else none

/-- The range check that `ParseInt` applies to the result of `ParseUint`. -/
def rangeCheck (neg : Bool) (r : Nat × Option NumError) : Int × Option NumError :=
  if r.2 = some NumError.ErrSyntax then (0, some NumError.ErrSyntax)
  else if neg = false ∧ r.1 ≥ 2147483648 then (2147483647, some NumError.ErrRange)
  else if neg = true ∧ r.1 > 2147483648 then (-2147483648, some NumError.ErrRange)
  else if neg then (-(r.1 : Int), none)
  else ((r.1 : Int), none)

/-! ## Sample inputs and expected results -/

/-- A response writer on which nothing has been called. -/
def freshWriter : ResponseWriter := { status := none, body := [] }

/-- A process state: one entity left by an earlier request, nothing printed. -/
def sampleWorld : World := { entities := [Entity.zero], stdout := [], gcCalls := 0 }

/-- A sample of memory statistics. -/
def sampleStats : MemStats :=
  { Alloc := 3000000, HeapAlloc := 2500000, TotalAlloc := 9000000, StackSys := 1048576,
    HeapSys := 8000000, Sys := 20000000, NumGC := 7 }

/-- The state in which the handler leaves the process on the zero-amount path:
the package variable is empty, one garbage collection has run, and three lines
have been printed, the last one the diagnostic. -/
def zeroAmountWorld (σ : World) : World :=
  { entities := [],
    stdout := σ.stdout ++ ["called createEntities\n", "Creating data\n", "Error: amount was 0\n"],
    gcCalls := σ.gcCalls + 1 }

/-- The result of the zero-amount path: a normal return, the response writer
untouched, no slice allocated and no byte count computed. -/
def zeroAmountResult (w : ResponseWriter) (σ : World) : Result :=
  { outcome := Outcome.returned,
    locals := { amount := 0, entities := none, allocatedBytes := none },
    w := w,
    world := zeroAmountWorld σ }

/-! ## `strconv.ParseUint` on bytes -/

theorem digitOf_digit {c : Nat} (h : isDigitByte c = true) : digitOf c = some (c - 48) := by
  simp only [isDigitByte, decide_eq_true_eq] at h
  simp [digitOf, h]

theorem digitOf_nondigit {c : Nat} (h : isDigitByte c = false) :
    digitOf c = none ∨ ∃ d, digitOf c = some d ∧ base ≤ d := by
  simp only [isDigitByte, decide_eq_false_iff_not] at h
  unfold digitOf
  rw [if_neg h]
  split
  · right
    exact ⟨_, rfl, by unfold base; omega⟩
  · left; rfl

theorem parseUintLoop_nondigit {c : Nat} (h : isDigitByte c = false) (cs : List Nat) (n : Nat) :
    parseUintLoop (c :: cs) n = (0, some NumError.ErrSyntax) := by
  rcases digitOf_nondigit h with h0 | ⟨d, hd, hb⟩
  · simp [parseUintLoop, h0]
  · simp [parseUintLoop, hd, hb]

theorem parseUintLoop_digit {c : Nat} (h : isDigitByte c = true) (cs : List Nat) {n : Nat}
    (hn : n ≤ maxVal) :
    parseUintLoop (c :: cs) n =
      if maxVal < n * 10 + (c - 48) then (maxVal, some NumError.ErrRange)
      else parseUintLoop cs (n * 10 + (c - 48)) := by
  have hd := digitOf_digit h
  simp only [isDigitByte, decide_eq_true_eq] at h
  have hmv : maxVal = 4294967295 := by decide
  have hcut : cutoff = 1844674407370955162 := by decide
  rw [hmv] at hn
  have h1 : ¬ (c - 48 ≥ base) := by unfold base; omega
  have h2 : ¬ (n ≥ cutoff) := by rw [hcut]; omega
  have h3 : n * base % 2 ^ 64 = n * 10 := by unfold base; omega
  have h4 : (n * 10 + (c - 48)) % 2 ^ 64 = n * 10 + (c - 48) := by omega
  rw [parseUintLoop]
  simp only [hd, if_neg h1, if_neg h2, h3, h4]
  by_cases h5 : maxVal < n * 10 + (c - 48)
  · rw [if_pos h5, if_pos (Or.inr h5)]
  · rw [if_neg h5, if_neg (by omega)]

theorem byteVal_ge (ds : List Nat) (n : Nat) : n ≤ byteVal n ds := by
  induction ds generalizing n with
  | nil => simp [byteVal]
  | cons c cs ih =>
    have := ih (n * 10 + (c - 48))
    simp only [byteVal, List.foldl_cons] at this ⊢
    omega

theorem parseUintLoop_append (ds rest : List Nat) (hds : ∀ c ∈ ds, isDigitByte c = true) :
    ∀ n : Nat, n ≤ maxVal →
      parseUintLoop (ds ++ rest) n =
        if maxVal < byteVal n ds then (maxVal, some NumError.ErrRange)
        else parseUintLoop rest (byteVal n ds) := by
  induction ds with
  | nil =>
    intro n hn
    simp only [List.nil_append, byteVal, List.foldl_nil]
    rw [if_neg (by omega)]
  | cons c cs ih =>
    intro n hn
    have hc : isDigitByte c = true := hds c (List.mem_cons_self _ _)
    have hcs : ∀ x ∈ cs, isDigitByte x = true := fun x hx => hds x (List.mem_cons_of_mem _ hx)
    rw [List.cons_append, parseUintLoop_digit hc _ hn]
    have hval : byteVal n (c :: cs) = byteVal (n * 10 + (c - 48)) cs := by
      simp [byteVal]
    rw [hval]
    by_cases h : maxVal < n * 10 + (c - 48)
    · have := byteVal_ge cs (n * 10 + (c - 48))
      rw [if_pos h, if_pos (by omega)]
    · rw [if_neg h]
      exact ih hcs _ (by omega)

/-- Whatever the bytes, the loop of `ParseUint` ends in one of three ways: a
value of at most `maxVal` and no error, `0` and a syntax error, or `maxVal`
and a range error. -/
theorem parseUintLoop_cases (cs : List Nat) :
    ∀ n : Nat, n ≤ maxVal →
      (∃ v, v ≤ maxVal ∧ parseUintLoop cs n = (v, none)) ∨
      parseUintLoop cs n = (0, some NumError.ErrSyntax) ∨
      parseUintLoop cs n = (maxVal, some NumError.ErrRange) := by
  induction cs with
  | nil => intro n hn; exact Or.inl ⟨n, hn, rfl⟩
  | cons c cs ih =>
    intro n hn
    cases hc : isDigitByte c with
    | false => exact Or.inr (Or.inl (parseUintLoop_nondigit hc cs n))
    | true =>
      rw [parseUintLoop_digit hc cs hn]
      by_cases h : maxVal < n * 10 + (c - 48)
      · rw [if_pos h]; exact Or.inr (Or.inr rfl)
      · rw [if_neg h]; exact ih _ (by omega)

theorem ParseUint_cases (cs : List Nat) :
    (∃ v, v ≤ maxVal ∧ ParseUint cs = (v, none)) ∨
    ParseUint cs = (0, some NumError.ErrSyntax) ∨
    ParseUint cs = (maxVal, some NumError.ErrRange) := by
  unfold ParseUint
  split
  · exact Or.inr (Or.inl rfl)
  · exact parseUintLoop_cases cs 0 (by decide)

/-- Whatever the bytes, `ParseInt` ends in one of four ways. -/
theorem ParseInt_cases (s : List Nat) :
    (∃ v : Int, -2147483648 ≤ v ∧ v ≤ 2147483647 ∧ ParseInt s = (v, none)) ∨
    ParseInt s = (0, some NumError.ErrSyntax) ∨
    ParseInt s = (2147483647, some NumError.ErrRange) ∨
    ParseInt s = (-2147483648, some NumError.ErrRange) := by
  cases s with
  | nil => exact Or.inr (Or.inl rfl)
  | cons c rest =>
    have hmv : maxVal = 4294967295 := by decide
    have hbs : bitSize = 32 := rfl
    simp only [ParseInt, hbs]
    generalize (if c = 43 then rest else if c = 45 then rest else c :: rest) = s1
    rcases ParseUint_cases s1 with ⟨v, hv, h⟩ | h | h
    · rw [h]
      simp only [reduceCtorEq, if_false]
      rw [hmv] at hv
      by_cases hneg : c = 45
      · simp only [hneg, decide_True, Bool.true_eq_false, false_and, if_false, true_and, if_true]
        by_cases h1 : v > 2 ^ (32 - 1)
        · rw [if_pos h1]; exact Or.inr (Or.inr (Or.inr rfl))
        · rw [if_neg h1]
          refine Or.inl ⟨-(v : Int), ?_, ?_, rfl⟩ <;> omega
      · simp only [hneg, decide_False, true_and, Bool.false_eq_true, false_and, if_false]
        by_cases h1 : v ≥ 2 ^ (32 - 1)
        · rw [if_pos h1]; exact Or.inr (Or.inr (Or.inl rfl))
        · rw [if_neg h1]
          refine Or.inl ⟨(v : Int), ?_, ?_, rfl⟩ <;> omega
    · rw [h]; simp
    · rw [h]
      simp only [reduceCtorEq, if_false, hmv]
      by_cases hneg : c = 45
      · simp [hneg]
      · simp [hneg]

/-! ## From characters to bytes -/

theorem lor_ge (u k : UInt8) (hk : k.toNat.testBit 7 = true) : 128 ≤ (u ||| k).toNat := by
  show 128 ≤ (u.toBitVec ||| k.toBitVec).toNat
  rw [BitVec.toNat_or]
  have h : (u.toBitVec.toNat ||| k.toBitVec.toNat).testBit 7 = true := by
    rw [Nat.testBit_or]
    have : k.toBitVec.toNat.testBit 7 = true := hk
    rw [this, Bool.or_true]
  exact Nat.testBit_implies_ge h

theorem charBytes_ascii {c : Char} (h : c.toNat < 128) : charBytes c = [c.toNat] := by
  have h1 : c.val ≤ 0x7f := by
    show c.val.toNat ≤ 127
    have : c.toNat = c.val.toNat := rfl
    omega
  simp only [charBytes, String.utf8EncodeChar, if_pos h1, List.map_cons, List.map_nil]
  congr 1
  show c.val.toNat % 256 = c.toNat
  have : c.toNat = c.val.toNat := rfl
  omega

theorem charBytes_nonascii {c : Char} (h : 128 ≤ c.toNat) :
    ∃ b bs, charBytes c = b :: bs ∧ 128 ≤ b := by
  have h1 : ¬ c.val ≤ 0x7f := by
    show ¬ c.val.toNat ≤ 127
    have : c.toNat = c.val.toNat := rfl
    omega
  simp only [charBytes, String.utf8EncodeChar, if_neg h1]
  split
  · refine ⟨_, _, rfl, ?_⟩
    exact lor_ge _ 0xc0 (by decide)
  · split
    · refine ⟨_, _, rfl, ?_⟩
      exact lor_ge _ 0xe0 (by decide)
    · refine ⟨_, _, rfl, ?_⟩
      exact lor_ge _ 0xf0 (by decide)

theorem goBytes_mk (cs : List Char) : goBytes (String.mk cs) = cs.flatMap charBytes := by
  simp only [goBytes, String.toUTF8, charBytes]
  induction cs with
  | nil => rfl
  | cons c cs ih =>
    rw [List.flatMap_cons, List.flatMap_cons, ← ih]
    simp [charBytes]

theorem isDigit_toNat {c : Char} (h : c.isDigit = true) : 48 ≤ c.toNat ∧ c.toNat ≤ 57 := by
  simp only [Char.isDigit, Bool.and_eq_true, decide_eq_true_eq] at h
  have h1 : (48 : UInt32).toNat ≤ c.val.toNat := h.1
  have h2 : c.val.toNat ≤ (57 : UInt32).toNat := h.2
  have e1 : (48 : UInt32).toNat = 48 := rfl
  have e2 : (57 : UInt32).toNat = 57 := rfl
  have : c.toNat = c.val.toNat := rfl
  omega

theorem not_isDigit_toNat {c : Char} (h : c.isDigit = false) : ¬ (48 ≤ c.toNat ∧ c.toNat ≤ 57) := by
  intro hc
  have : c.isDigit = true := by
    simp only [Char.isDigit, Bool.and_eq_true, decide_eq_true_eq]
    have e : c.toNat = c.val.toNat := rfl
    constructor
    · show (48 : UInt32).toNat ≤ c.val.toNat
      have e1 : (48 : UInt32).toNat = 48 := rfl
      omega
    · show c.val.toNat ≤ (57 : UInt32).toNat
      have e2 : (57 : UInt32).toNat = 57 := rfl
      omega
  rw [this] at h
  cases h

theorem charBytes_digit {c : Char} (h : c.isDigit = true) : charBytes c = [c.toNat] :=
  charBytes_ascii (by have := isDigit_toNat h; omega)

/-- Every character starts with a byte, and a character that is no digit starts
with a byte that is no digit. -/
theorem charBytes_head (c : Char) :
    ∃ b bs, charBytes c = b :: bs ∧ (c.toNat < 128 → b = c.toNat ∧ bs = []) ∧
      (128 ≤ c.toNat → 128 ≤ b) := by
  by_cases h : c.toNat < 128
  · refine ⟨c.toNat, [], charBytes_ascii h, fun _ => ⟨rfl, rfl⟩, ?_⟩
    intro h2
    omega
  · have hc : 128 ≤ c.toNat := by omega
    obtain ⟨b, bs, hb, hge⟩ := charBytes_nonascii hc
    exact ⟨b, bs, hb, fun h2 => absurd h2 h, fun _ => hge⟩

theorem charBytes_nondigit {c : Char} (h : c.isDigit = false) :
    ∃ b bs, charBytes c = b :: bs ∧ isDigitByte b = false := by
  obtain ⟨b, bs, hb, h1, h2⟩ := charBytes_head c
  refine ⟨b, bs, hb, ?_⟩
  have hn := not_isDigit_toNat h
  simp only [isDigitByte, decide_eq_false_iff_not]
  by_cases hc : c.toNat < 128
  · rw [(h1 hc).1]; exact hn
  · have := h2 (by omega); omega

theorem flatMap_digits (ds : List Char) (h : ∀ c ∈ ds, c.isDigit = true) :
    ds.flatMap charBytes = ds.map Char.toNat := by
  induction ds with
  | nil => rfl
  | cons c cs ih =>
    rw [List.flatMap_cons, List.map_cons, charBytes_digit (h c (List.mem_cons_self _ _)),
      ih (fun x hx => h x (List.mem_cons_of_mem _ hx))]
    rfl

theorem byteVal_map (ds : List Char) (n : Nat) :
    byteVal n (ds.map Char.toNat) = ds.foldl (fun a c => a * 10 + (c.toNat - 48)) n := by
  induction ds generalizing n with
  | nil => rfl
  | cons c cs ih =>
    simp only [byteVal, List.map_cons, List.foldl_cons] at ih ⊢
    exact ih _

theorem map_digits_isDigitByte (ds : List Char) (h : ∀ c ∈ ds, c.isDigit = true) :
    ∀ b ∈ ds.map Char.toNat, isDigitByte b = true := by
  intro b hb
  rw [List.mem_map] at hb
  obtain ⟨c, hc, rfl⟩ := hb
  have := isDigit_toNat (h c hc)
  simp only [isDigitByte, decide_eq_true_eq]
  exact this

/-- The call `ParseUint` on the bytes of a run of characters: it reads the leading
digits, gives up with a range error as soon as they exceed `maxVal`, and
otherwise wants them to be the whole, non-empty run. -/
theorem ParseUint_chars (cs : List Char) :
    ParseUint (cs.flatMap charBytes) =
      if cs = [] then (0, some NumError.ErrSyntax)
      else if maxVal < decimalValue (cs.takeWhile Char.isDigit) then
        (maxVal, some NumError.ErrRange)
      else if cs.takeWhile Char.isDigit = cs then
        (decimalValue (cs.takeWhile Char.isDigit), none)
      else (0, some NumError.ErrSyntax) := by
  by_cases hnil : cs = []
  · subst hnil; rfl
  rw [if_neg hnil]
  have hne : cs.flatMap charBytes ≠ [] := by
    cases cs with
    | nil => exact absurd rfl hnil
    | cons c rest =>
      obtain ⟨b, bs, hb, -⟩ := charBytes_head c
      rw [List.flatMap_cons, hb]
      simp
  have hds : ∀ c ∈ cs.takeWhile Char.isDigit, c.isDigit = true :=
    fun c hc => List.mem_takeWhile_imp hc
  have hsplit : cs.flatMap charBytes =
      (cs.takeWhile Char.isDigit).map Char.toNat ++ (cs.dropWhile Char.isDigit).flatMap charBytes := by
    conv_lhs => rw [← List.takeWhile_append_dropWhile Char.isDigit cs]
    rw [List.flatMap_append, flatMap_digits _ hds]
  unfold ParseUint
  rw [if_neg hne, hsplit, parseUintLoop_append _ _ (map_digits_isDigitByte _ hds) 0 (by decide),
    byteVal_map]
  show (if maxVal < decimalValue (cs.takeWhile Char.isDigit) then _ else _) = _
  by_cases hov : maxVal < decimalValue (cs.takeWhile Char.isDigit)
  · rw [if_pos hov, if_pos hov]
  · rw [if_neg hov, if_neg hov]
    by_cases hall : cs.takeWhile Char.isDigit = cs
    · rw [if_pos hall]
      have hdrop : cs.dropWhile Char.isDigit = [] := by
        have := List.takeWhile_append_dropWhile Char.isDigit cs
        rw [hall] at this
        exact List.append_right_eq_self.mp this
      rw [hdrop]
      rfl
    · rw [if_neg hall]
      cases hd : cs.dropWhile Char.isDigit with
      | nil =>
        exfalso
        apply hall
        have := List.takeWhile_append_dropWhile Char.isDigit cs
        rw [hd, List.append_nil] at this
        exact this
      | cons c rest =>
        have hc : c.isDigit = false := by
          have := List.head_dropWhile_not Char.isDigit cs (by rw [hd]; simp)
          simpa [hd] using this
        obtain ⟨b, bs, hb, hnd⟩ := charBytes_nondigit hc
        rw [List.flatMap_cons, hb, List.cons_append]
        exact parseUintLoop_nondigit hnd _ _

theorem ParseInt_cons (c : Nat) (rest : List Nat) :
    ParseInt (c :: rest) =
      rangeCheck (decide (c = 45))
        (ParseUint (if c = 43 then rest else if c = 45 then rest else c :: rest)) := by
  simp only [ParseInt, rangeCheck, bitSize]
  rfl

theorem char_eq_of_toNat {c : Char} {n : Nat} (h : c.toNat = n) : c = Char.ofNat n := by
  rw [← h, Char.ofNat_toNat]

/-- The call `ParseInt` on the bytes of a string: the sign is picked off, the rest
goes to `ParseUint`, and the result goes through the range check. -/
theorem ParseInt_goBytes (s : String) :
    ParseInt (goBytes s) =
      rangeCheck (isNegative s) (ParseUint ((unsignedPart s).flatMap charBytes)) := by
  obtain ⟨cs⟩ := s
  rw [goBytes_mk]
  cases cs with
  | nil => rfl
  | cons c rest =>
    simp only [isNegative, unsignedPart, List.head?_cons, List.flatMap_cons]
    by_cases hp : c = '+'
    · subst hp
      have : charBytes '+' = [43] := charBytes_ascii (by decide)
      rw [this]
      rfl
    by_cases hm : c = '-'
    · subst hm
      have : charBytes '-' = [45] := charBytes_ascii (by decide)
      rw [this]
      rfl
    obtain ⟨b, bs, hb, h1, h2⟩ := charBytes_head c
    have hb43 : b ≠ 43 := by
      intro h
      by_cases hc : c.toNat < 128
      · exact hp (char_eq_of_toNat (by rw [← (h1 hc).1, h]))
      · have := h2 (by omega); omega
    have hb45 : b ≠ 45 := by
      intro h
      by_cases hc : c.toNat < 128
      · exact hm (char_eq_of_toNat (by rw [← (h1 hc).1, h]))
      · have := h2 (by omega); omega
    have hor : ¬ (c = '+' ∨ c = '-') := by
      rintro (h | h)
      · exact hp h
      · exact hm h
    rw [if_neg hor, List.flatMap_cons, hb, List.cons_append, ParseInt_cons, if_neg hb43,
      if_neg hb45]
    have hd1 : decide (b = 45) = false := by simp [hb45]
    have hd2 : decide (some c = some '-') = false := by simp [hm]
    rw [hd1, hd2]

theorem takeWhile_eq_self_of_all {cs : List Char} (h : cs.all Char.isDigit = true) :
    cs.takeWhile Char.isDigit = cs := by
  rw [List.takeWhile_eq_self_iff]
  intro c hc
  exact List.all_eq_true.mp h c hc

theorem all_of_takeWhile_eq_self {cs : List Char} (h : cs.takeWhile Char.isDigit = cs) :
    cs.all Char.isDigit = true := by
  rw [List.all_eq_true]
  exact List.takeWhile_eq_self_iff.mp h

/-- What `ParseInt` returns on a string, in terms of its characters: the sign, the
digits that follow it, and whether they are the whole rest of the string. -/
theorem ParseInt_string (s : String) :
    ParseInt (goBytes s) =
      if unsignedPart s = [] then (0, some NumError.ErrSyntax)
      else if 4294967295 < decimalValue (leadingDigits s) then
        (if isNegative s then -2147483648 else 2147483647, some NumError.ErrRange)
      else if leadingDigits s = unsignedPart s then
        rangeCheck (isNegative s) (decimalValue (leadingDigits s), none)
      else (0, some NumError.ErrSyntax) := by
  rw [ParseInt_goBytes, ParseUint_chars]
  have hmv : maxVal = 4294967295 := by decide
  rw [hmv]
  unfold leadingDigits
  by_cases h1 : unsignedPart s = []
  · rw [if_pos h1, if_pos h1]; rfl
  rw [if_neg h1, if_neg h1]
  by_cases h2 : 4294967295 < decimalValue ((unsignedPart s).takeWhile Char.isDigit)
  · rw [if_pos h2, if_pos h2]
    cases isNegative s <;> rfl
  rw [if_neg h2, if_neg h2]
  by_cases h3 : (unsignedPart s).takeWhile Char.isDigit = unsignedPart s
  · rw [if_pos h3, if_pos h3]
  · rw [if_neg h3, if_neg h3]; rfl

/-- A literal within the 32-bit range parses to its value, without error. -/
theorem ParseInt_literal_inRange {s : String} {v : Int} (h : literalValue s = some v)
    (hlo : -2147483648 ≤ v) (hhi : v ≤ 2147483647) :
    ParseInt (goBytes s) = (v, none) := by
  unfold literalValue at h
  split at h
  · next hlit =>
    obtain ⟨hne, hall⟩ := hlit
    have htw : leadingDigits s = unsignedPart s := takeWhile_eq_self_of_all hall
    rw [ParseInt_string, if_neg hne, htw, if_pos rfl]
    cases hneg : isNegative s with
    | true =>
      rw [hneg] at h
      simp only [if_true, Option.some.injEq] at h
      have hv : decimalValue (unsignedPart s) ≤ 2147483648 := by omega
      rw [if_neg (by omega)]
      simp only [rangeCheck, reduceCtorEq, if_false, Bool.true_eq_false, false_and, true_and,
        if_true]
      rw [if_neg (by omega), h]
    | false =>
      rw [hneg] at h
      simp only [Bool.false_eq_true, if_false, Option.some.injEq] at h
      have hv : decimalValue (unsignedPart s) ≤ 2147483647 := by omega
      rw [if_neg (by omega)]
      simp only [rangeCheck, reduceCtorEq, if_false, true_and, Bool.false_eq_true, false_and]
      rw [if_neg (by omega), h]
  · cases h

/-- A literal above the 32-bit range parses to `2147483647`, with a range error. -/
theorem ParseInt_literal_above {s : String} {v : Int} (h : literalValue s = some v)
    (hv : 2147483647 < v) :
    ParseInt (goBytes s) = (2147483647, some NumError.ErrRange) := by
  unfold literalValue at h
  split at h
  · next hlit =>
    obtain ⟨hne, hall⟩ := hlit
    have htw : leadingDigits s = unsignedPart s := takeWhile_eq_self_of_all hall
    rw [ParseInt_string, if_neg hne, htw, if_pos rfl]
    cases hneg : isNegative s with
    | true =>
      rw [hneg] at h
      simp only [if_true, Option.some.injEq] at h
      omega
    | false =>
      rw [hneg] at h
      simp only [Bool.false_eq_true, if_false, Option.some.injEq] at h
      by_cases hbig : 4294967295 < decimalValue (unsignedPart s)
      · rw [if_pos hbig]
        rfl
      · rw [if_neg hbig]
        simp only [rangeCheck, reduceCtorEq, if_false, true_and]
        rw [if_pos (by omega)]
  · cases h

/-- A string that is no literal, and whose leading digits do not exceed
`4294967295`, is a syntax error with value `0`. -/
theorem ParseInt_nonliteral {s : String} (h : literalValue s = none)
    (hv : decimalValue (leadingDigits s) ≤ 4294967295) :
    ParseInt (goBytes s) = (0, some NumError.ErrSyntax) := by
  rw [ParseInt_string]
  by_cases h1 : unsignedPart s = []
  · rw [if_pos h1]
  rw [if_neg h1, if_neg (by omega)]
  by_cases h3 : leadingDigits s = unsignedPart s
  · exfalso
    have hall := all_of_takeWhile_eq_self h3
    unfold literalValue at h
    rw [if_pos ⟨h1, hall⟩] at h
    split at h <;> cases h
  · rw [if_neg h3]

/-- A string whose leading digits exceed `4294967295` is a range error with the
bound of its sign as value, whatever follows the digits. -/
theorem ParseInt_overflow {s : String} (hv : 4294967295 < decimalValue (leadingDigits s)) :
    ParseInt (goBytes s) =
      (if isNegative s then -2147483648 else 2147483647, some NumError.ErrRange) := by
  rw [ParseInt_string]
  have hne : unsignedPart s ≠ [] := by
    intro h
    unfold leadingDigits at hv
    rw [h] at hv
    exact absurd hv (by decide)
  rw [if_neg hne, if_pos hv]

/-! ## The paths of the handler -/

theorem wrapInt64_of_inRange {x : Int} (h1 : -9223372036854775808 ≤ x)
    (h2 : x < 9223372036854775808) : wrapInt64 x = x := by
  unfold wrapInt64
  omega

theorem sizeofEntity_eq : sizeofEntity = 40 := rfl

/-- The handler when the amount is zero. -/
theorem createEntities_of_zero (m : MemStats) (w : ResponseWriter) (count : String) (σ : World)
    (h : (ParseInt (goBytes count)).1 = 0) :
    createEntities m w count σ = zeroAmountResult w σ := by
  unfold createEntities
  simp only [h, if_true]
  simp [zeroAmountResult, zeroAmountWorld, Println, GC]

/-- The handler when the amount is negative. -/
theorem createEntities_of_neg (m : MemStats) (w : ResponseWriter) (count : String) (σ : World)
    (h : (ParseInt (goBytes count)).1 < 0) :
    createEntities m w count σ =
      { outcome := Outcome.panicked "runtime error: makeslice: len out of range",
        locals := { amount := (ParseInt (goBytes count)).1, entities := none,
                    allocatedBytes := none },
        w := w,
        world := { entities := [],
                   stdout := σ.stdout ++ ["called createEntities\n", "Creating data\n"],
                   gcCalls := σ.gcCalls + 1 } } := by
  unfold createEntities
  have h0 : ¬ (ParseInt (goBytes count)).1 = 0 := by omega
  have hm : makeslice (ParseInt (goBytes count)).1 = none := by
    unfold makeslice
    rw [if_pos (Or.inl h)]
  simp only [h0, if_false, hm]
  simp [Println, GC]

/-- The handler when the amount is positive and within the 32-bit range. -/
theorem createEntities_of_pos (m : MemStats) (w : ResponseWriter) (count : String) (σ : World)
    (h1 : 0 < (ParseInt (goBytes count)).1) (h2 : (ParseInt (goBytes count)).1 ≤ 2147483647) :
    createEntities m w count σ =
      { outcome := Outcome.returned,
        locals := { amount := (ParseInt (goBytes count)).1,
                    entities := some (List.replicate (ParseInt (goBytes count)).1.toNat Entity.zero),
                    allocatedBytes := some (40 * (ParseInt (goBytes count)).1) },
        w := Encode w ("allocated: " ++ Itoa (40 * (ParseInt (goBytes count)).1) ++ " bytes"),
        world := printStats m
          { entities := [],
            stdout := σ.stdout ++ ["called createEntities\n", "Creating data\n", "Created data\n"],
            gcCalls := σ.gcCalls + 2 } } := by
  unfold createEntities
  generalize (ParseInt (goBytes count)).1 = a at h1 h2
  have h0 : ¬ a = 0 := by omega
  have hm : makeslice a = some (List.replicate a.toNat Entity.zero) := by
    unfold makeslice
    rw [if_neg]
    rw [sizeofEntity_eq]
    have : maxAlloc = 281474976710656 := by decide
    rw [this]
    omega
  have hw1 : wrapInt64 ((sizeofEntity : Nat) : Int) = 40 := by
    rw [sizeofEntity_eq]; exact wrapInt64_of_inRange (by decide) (by decide)
  have hw2 : wrapInt64 a = a := wrapInt64_of_inRange (by omega) (by omega)
  have hw3 : wrapInt64 (40 * a) = 40 * a := wrapInt64_of_inRange (by omega) (by omega)
  simp only [h0, if_false, hm, hw1, hw2, hw3]
  simp [Println, GC]

/-! ## Decimal rendering -/

theorem digitChar_spec : ∀ d : Nat, d < 10 →
    (Nat.digitChar d).isDigit = true ∧ (Nat.digitChar d).toNat - 48 = d := by
  decide

/-- Reading back what `Nat.toDigitsCore 10` produced: the digits it puts in front
of the accumulator `rest` carry the value `k`. -/
theorem foldl_toDigitsCore (gas : Nat) (k : Nat) (rest : List Char) (hgas : k < gas) :
    (Nat.toDigitsCore 10 gas k rest).foldl (fun a c => a * 10 + (c.toNat - 48)) 0 =
      rest.foldl (fun a c => a * 10 + (c.toNat - 48)) k := by
  induction gas generalizing k rest with
  | zero => omega
  | succ g ih =>
    have hlast := (digitChar_spec (k % 10) (Nat.mod_lt _ (by decide))).2
    unfold Nat.toDigitsCore
    by_cases hsmall : k / 10 = 0
    · rw [if_pos hsmall, List.foldl_cons, hlast]
      congr 1
      omega
    · rw [if_neg hsmall, ih (k / 10) _ (by omega), List.foldl_cons, hlast]
      congr 1
      omega

/-- The rendering adds nothing but digits. -/
theorem all_toDigitsCore (gas : Nat) (k : Nat) (rest : List Char)
    (hrest : rest.all Char.isDigit = true) :
    (Nat.toDigitsCore 10 gas k rest).all Char.isDigit = true := by
  induction gas generalizing k rest with
  | zero => exact hrest
  | succ g ih =>
    have hd := (digitChar_spec (k % 10) (Nat.mod_lt _ (by decide))).1
    have hcons : (Nat.digitChar (k % 10) :: rest).all Char.isDigit = true := by
      rw [List.all_cons, hd, hrest]
      rfl
    unfold Nat.toDigitsCore
    by_cases hsmall : k / 10 = 0
    · rw [if_pos hsmall]; exact hcons
    · rw [if_neg hsmall]; exact ih _ _ hcons

/-- The decimal rendering of `n` is a literal that denotes `n`. -/
theorem literalValue_repr (n : Nat) : literalValue (Nat.repr n) = some (n : Int) := by
  have hdata : (Nat.repr n).data = Nat.toDigitsCore 10 (n + 1) n [] := rfl
  have hval : decimalValue (Nat.repr n).data = n := by
    rw [hdata]
    exact foldl_toDigitsCore (n + 1) n [] (Nat.lt_succ_self n)
  have hall : (Nat.repr n).data.all Char.isDigit = true := by
    rw [hdata]
    exact all_toDigitsCore (n + 1) n [] rfl
  have hne : (Nat.repr n).data ≠ [] := by
    rw [hdata]
    intro hnil
    have hlen := congrArg List.length hnil
    unfold Nat.toDigitsCore at hlen
    by_cases hsmall : n / 10 = 0
    · simp [hsmall] at hlen
    · simp only [hsmall, if_false] at hlen
      rw [Nat.toDigitsCore_lens_eq] at hlen
      simp at hlen
  unfold literalValue unsignedPart isNegative
  generalize (Nat.repr n).data = ds at hval hall hne
  cases ds with
  | nil => exact absurd rfl hne
  | cons c rest =>
    have hc : c.isDigit = true := by
      rw [List.all_cons, Bool.and_eq_true] at hall
      exact hall.1
    have hplus : c ≠ '+' := by
      intro h; rw [h] at hc; exact absurd hc (by decide)
    have hminus : c ≠ '-' := by
      intro h; rw [h] at hc; exact absurd hc (by decide)
    simp only [hplus, hminus, or_self, if_false, List.head?_cons, Option.some.injEq,
      decide_False, Bool.false_eq_true]
    rw [if_pos ⟨by simp, hall⟩, hval]

/-! ## The loop of `Reverse` -/

theorem swapAt_inRange (r : List Char) (i j : Nat) (hi : i < r.length) (hj : j < r.length) :
    swapAt r (i : Int) (j : Int) = some ((r.set i (r.getD j 'A')).set j (r.getD i 'A')) := by
  unfold swapAt
  rw [if_pos ⟨by omega, by omega, by omega, by omega⟩]
  simp

theorem reverseLoop_done (r : List Char) (i j : Int) (h : ¬ i < (r.length : Int) / 2) :
    reverseLoop r i j = some r := by
  rw [reverseLoop, if_neg h]

theorem reverseLoop_step (r r1 : List Char) (i j : Int) (h : i < (r.length : Int) / 2)
    (hs : swapAt r i j = some r1) :
    reverseLoop r i j = reverseLoop r1 (i + 1) (j - 1) := by
  rw [reverseLoop, if_pos h]
  split
  · next h2 => rw [hs] at h2; cases h2
  · next r2 h2 =>
    rw [hs] at h2
    cases h2
    rfl

/-- The loop of `Reverse`, started at `i` with `j = len(r) - 1 - i`, ends without
an index panic and leaves the slice with its middle part `i .. len(r)-1-i`
reversed and the rest untouched. -/
theorem reverseLoop_spec (k : Nat) :
    ∀ (r : List Char) (i : Nat), r.length / 2 - i = k → i ≤ r.length / 2 →
      ∃ t : List Char,
        reverseLoop r (i : Int) ((r.length : Int) - 1 - (i : Int)) = some t ∧
        t.length = r.length ∧
        ∀ p : Nat, t[p]? = if i ≤ p ∧ p < r.length - i then r[r.length - 1 - p]? else r[p]? := by
  induction k with
  | zero =>
    intro r i hk hi
    refine ⟨r, reverseLoop_done r _ _ (by omega), rfl, ?_⟩
    intro p
    split
    · next hp =>
      have : r.length - 1 - p = p := by omega
      rw [this]
    · rfl
  | succ k ih =>
    intro r i hk hi
    have hlt : i < r.length / 2 := by omega
    have hi1 : i < r.length := by omega
    have hj1 : r.length - 1 - i < r.length := by omega
    have hjcast : ((r.length : Int) - 1 - (i : Int)) = ((r.length - 1 - i : Nat) : Int) := by omega
    have hs := swapAt_inRange r i (r.length - 1 - i) hi1 hj1
    rw [← hjcast] at hs
    have hstep := reverseLoop_step r _ (i : Int) _ (by omega) hs
    generalize hr1 : (r.set i (r.getD (r.length - 1 - i) 'A')).set (r.length - 1 - i)
      (r.getD i 'A') = r1 at hs hstep
    have hlen1 : r1.length = r.length := by rw [← hr1]; simp
    obtain ⟨t, ht, htlen, htp⟩ := ih r1 (i + 1) (by rw [hlen1]; omega) (by rw [hlen1]; omega)
    have hidx : ((r1.length : Int) - 1 - ((i + 1 : Nat) : Int)) =
        ((r.length : Int) - 1 - (i : Int)) - 1 := by rw [hlen1]; omega
    have hcast : ((i + 1 : Nat) : Int) = (i : Int) + 1 := by omega
    rw [hidx, hcast] at ht
    refine ⟨t, by rw [hstep]; exact ht, by rw [htlen, hlen1], ?_⟩
    intro p
    rw [htp p, hlen1]
    have hget : ∀ q : Nat, r1[q]? =
        if q = r.length - 1 - i then r[i]? else if q = i then r[r.length - 1 - i]? else r[q]? := by
      intro q
      rw [← hr1, List.getElem?_set, List.getElem?_set]
      simp only [List.length_set, List.getD_eq_getElem?_getD]
      rw [List.getElem?_eq_getElem hi1, List.getElem?_eq_getElem hj1]
      simp only [Option.getD_some]
      by_cases h1 : r.length - 1 - i = q
      · rw [if_pos h1, if_pos hj1, if_pos h1.symm]
      · have h1s : ¬ q = r.length - 1 - i := fun h => h1 h.symm
        rw [if_neg h1, if_neg h1s]
        by_cases h2 : i = q
        · rw [if_pos h2, if_pos hi1, if_pos h2.symm]
        · have h2s : ¬ q = i := fun h => h2 h.symm
          rw [if_neg h2, if_neg h2s]
    by_cases hin : i + 1 ≤ p ∧ p < r.length - (i + 1)
    · rw [if_pos hin, if_pos (by omega), hget, if_neg (by omega), if_neg (by omega)]
    · rw [if_neg hin, hget]
      by_cases hp1 : p = r.length - 1 - i
      · rw [if_pos hp1, if_pos (by omega)]
        have : r.length - 1 - p = i := by omega
        rw [this]
      · rw [if_neg hp1]
        by_cases hp2 : p = i
        · rw [if_pos hp2, if_pos (by omega), hp2]
        · rw [if_neg hp2, if_neg (by omega)]

/-- The loop of `Reverse` from its initial state reverses the slice. -/
theorem reverseLoop_reverse (r : List Char) :
    reverseLoop r 0 ((r.length : Int) - 1) = some r.reverse := by
  obtain ⟨t, ht, htlen, htp⟩ := reverseLoop_spec (r.length / 2 - 0) r 0 rfl (Nat.zero_le _)
  have h0 : ((r.length : Int) - 1 - ((0 : Nat) : Int)) = (r.length : Int) - 1 := by omega
  rw [h0] at ht
  have hcast : ((0 : Nat) : Int) = 0 := rfl
  rw [hcast] at ht
  rw [ht]
  congr 1
  apply List.ext_getElem?
  intro p
  rw [htp p]
  by_cases hp : p < r.length
  · rw [if_pos ⟨Nat.zero_le _, by omega⟩, List.getElem?_reverse hp]
  · rw [if_neg (by omega)]
    have h1 : r[p]? = none := List.getElem?_eq_none (by omega)
    have h2 : r.reverse[p]? = none := List.getElem?_eq_none (by simp; omega)
    rw [h1, h2]

/-! ## Facts shared by the claims -/

/-- The amount the handler works with lies in the 32-bit range. -/
theorem amount_range (count : String) :
    -2147483648 ≤ (ParseInt (goBytes count)).1 ∧ (ParseInt (goBytes count)).1 ≤ 2147483647 := by
  rcases ParseInt_cases (goBytes count) with ⟨v, h1, h2, h⟩ | h | h | h <;> rw [h] <;>
    constructor <;> simp <;> omega

/-- A syntax error comes with the value `0`. -/
theorem amount_of_syntaxError {count : String}
    (h : (ParseInt (goBytes count)).2 = some NumError.ErrSyntax) :
    (ParseInt (goBytes count)).1 = 0 := by
  rcases ParseInt_cases (goBytes count) with ⟨v, h1, h2, hv⟩ | hv | hv | hv <;> rw [hv] at h ⊢ <;>
    simp at h ⊢

/-- A string that does not begin with `-` has a non-negative amount. -/
theorem amount_nonneg_of_not_negative {count : String} (h : isNegative count = false) :
    0 ≤ (ParseInt (goBytes count)).1 := by
  rw [ParseInt_string, h]
  split
  · simp
  · split
    · simp
    · split
      · unfold rangeCheck
        simp only [reduceCtorEq, if_false, true_and, Bool.false_eq_true, false_and]
        split
        · simp
        · simp
      · simp

theorem printStats_entities (m : MemStats) (σ : World) : (printStats m σ).entities = σ.entities :=
  rfl

/-- The outcome of the handler is decided by the sign of the amount. -/
theorem outcome_returned_iff (m : MemStats) (w : ResponseWriter) (count : String) (σ : World) :
    (createEntities m w count σ).outcome = Outcome.returned ↔ 0 ≤ (ParseInt (goBytes count)).1 := by
  have hr := amount_range count
  rcases Int.lt_trichotomy (ParseInt (goBytes count)).1 0 with h | h | h
  · rw [createEntities_of_neg m w count σ h]
    constructor
    · intro h2; cases h2
    · intro h2; omega
  · rw [createEntities_of_zero m w count σ h]
    constructor
    · intro _; omega
    · intro _; rfl
  · rw [createEntities_of_pos m w count σ h hr.2]
    constructor
    · intro _; omega
    · intro _; rfl

/-- What the handler leaves in its locals and on the response writer does not
depend on the state of the process or on the memory statistics. -/
theorem createEntities_independent (m1 m2 : MemStats) (w : ResponseWriter) (count : String)
    (σ1 σ2 : World) :
    (createEntities m1 w count σ1).locals = (createEntities m2 w count σ2).locals ∧
    (createEntities m1 w count σ1).w = (createEntities m2 w count σ2).w ∧
    (createEntities m1 w count σ1).outcome = (createEntities m2 w count σ2).outcome := by
  have hr := amount_range count
  rcases Int.lt_trichotomy (ParseInt (goBytes count)).1 0 with h | h | h
  · rw [createEntities_of_neg m1 w count σ1 h, createEntities_of_neg m2 w count σ2 h]
    exact ⟨rfl, rfl, rfl⟩
  · rw [createEntities_of_zero m1 w count σ1 h, createEntities_of_zero m2 w count σ2 h]
    exact ⟨rfl, rfl, rfl⟩
  · rw [createEntities_of_pos m1 w count σ1 h hr.2, createEntities_of_pos m2 w count σ2 h hr.2]
    exact ⟨rfl, rfl, rfl⟩

/-- The package variable is empty when the handler ends, and a local slice, when
there is one, has `amount` zero values. -/
theorem createEntities_entities (m : MemStats) (w : ResponseWriter) (count : String) (σ : World) :
    (createEntities m w count σ).world.entities = [] ∧
    ∀ l : List Entity, (createEntities m w count σ).locals.entities = some l →
      0 < (createEntities m w count σ).locals.amount ∧
      l = List.replicate (createEntities m w count σ).locals.amount.toNat Entity.zero := by
  have hr := amount_range count
  rcases Int.lt_trichotomy (ParseInt (goBytes count)).1 0 with h | h | h
  · rw [createEntities_of_neg m w count σ h]
    exact ⟨rfl, fun l hl => by cases hl⟩
  · rw [createEntities_of_zero m w count σ h]
    exact ⟨rfl, fun l hl => by cases hl⟩
  · rw [createEntities_of_pos m w count σ h hr.2]
    refine ⟨rfl, fun l hl => ?_⟩
    simp only [Option.some.injEq] at hl
    exact ⟨h, hl.symm⟩

theorem Itoa_nonneg (n : Nat) : Itoa (40 * (n : Int)) = Nat.repr (n * 40) := by
  unfold Itoa
  rw [if_neg (by omega)]
  congr 1
  omega

/-! ## The claims -/

/-- C1, as stated, fails at `n = 2147483648`: the count `"2147483648"` is above the
32-bit range, the amount is clamped to `2147483647`, and the body reports
`85899345880` bytes, not `2147483648 * 40 = 85899345920`. -/
theorem createEntities_count_2147483648 :
    (createEntities sampleStats freshWriter (Nat.repr 2147483648) sampleWorld).w.body =
      ["\"allocated: 85899345880 bytes\"\n"] ∧
    [jsonString ("allocated: " ++ Nat.repr (2147483648 * sizeofEntity) ++ " bytes") ++ "\n"] =
      ["\"allocated: 85899345920 bytes\"\n"] ∧
    (createEntities sampleStats freshWriter (Nat.repr 2147483648) sampleWorld).w.body ≠
      [jsonString ("allocated: " ++ Nat.repr (2147483648 * sizeofEntity) ++ " bytes") ++ "\n"] := by
  decide

/-- C1, amended: for every integer `n` with `1 ≤ n ≤ 2147483647`, the handler called
with the decimal string of `n` returns normally and writes exactly one chunk
to the response, the JSON string `"allocated: K bytes"` followed by a newline,
where `K` is the decimal rendering of `n * sizeofEntity` and `sizeofEntity = 40`
(a string header of 16 bytes and a slice header of 24); it sets no status. -/
theorem createEntities_positive (m : MemStats) (w : ResponseWriter) (σ : World) (n : Nat)
    (hpos : 0 < n) (hmax : n ≤ 2147483647) :
    (createEntities m w (Nat.repr n) σ).outcome = Outcome.returned ∧
    (createEntities m w (Nat.repr n) σ).w.body =
      w.body ++ [jsonString ("allocated: " ++ Nat.repr (n * sizeofEntity) ++ " bytes") ++ "\n"] ∧
    (createEntities m w (Nat.repr n) σ).w.status = w.status ∧
    (createEntities m w (Nat.repr n) σ).locals.allocatedBytes =
      some ((n * sizeofEntity : Nat) : Int) ∧
    sizeofEntity = 40 ∧ sizeofString = 16 ∧ sizeofSlice = 24 := by
  have hparse : ParseInt (goBytes (Nat.repr n)) = ((n : Int), none) :=
    ParseInt_literal_inRange (literalValue_repr n) (by omega) (by omega)
  have h1 : 0 < (ParseInt (goBytes (Nat.repr n))).1 := by rw [hparse]; simp; omega
  have h2 : (ParseInt (goBytes (Nat.repr n))).1 ≤ 2147483647 := by rw [hparse]; simp; omega
  rw [createEntities_of_pos m w _ σ h1 h2, hparse]
  refine ⟨rfl, ?_, rfl, ?_, rfl, rfl, rfl⟩
  · simp only [Itoa_nonneg, sizeofEntity_eq, Encode]
  · simp only [sizeofEntity_eq]
    congr 1
    omega

/-- C1, at the count `"5"`: the body is `"allocated: 200 bytes"`. -/
theorem createEntities_count_5 :
    (createEntities sampleStats freshWriter "5" sampleWorld).outcome = Outcome.returned ∧
    (createEntities sampleStats freshWriter "5" sampleWorld).w.body =
      ["\"allocated: 200 bytes\"\n"] :=
  ⟨(createEntities_positive sampleStats freshWriter sampleWorld 5 (by decide) (by decide)).1,
   (createEntities_positive sampleStats freshWriter sampleWorld 5 (by decide) (by decide)).2.1⟩

/-- C2, as stated, fails at the count `"99999999999"`: parsing fails with a range
error, and the amount is `2147483647`, not zero; a body is written. -/
theorem createEntities_rangeError_amount :
    (ParseInt (goBytes "99999999999")).2 = some NumError.ErrRange ∧
    (createEntities sampleStats freshWriter "99999999999" sampleWorld).locals.amount = 2147483647 ∧
    (createEntities sampleStats freshWriter "99999999999" sampleWorld).w.body =
      ["\"allocated: 85899345880 bytes\"\n"] := by
  decide

/-- C2, amended: for every count string on which `ParseInt` fails with a syntax
error, the amount is zero and the handler takes the zero-amount path: it
returns after the diagnostic, allocates no slice and leaves the response
writer untouched. -/
theorem createEntities_syntaxError (m : MemStats) (w : ResponseWriter) (count : String)
    (σ : World) (h : (ParseInt (goBytes count)).2 = some NumError.ErrSyntax) :
    (ParseInt (goBytes count)).1 = 0 ∧
    createEntities m w count σ = zeroAmountResult w σ ∧
    (createEntities m w count σ).locals.entities = none ∧
    (createEntities m w count σ).w = w := by
  have h0 := amount_of_syntaxError h
  rw [createEntities_of_zero m w count σ h0]
  exact ⟨h0, rfl, rfl, rfl⟩

/-- C2, at the count `"abc"`. -/
theorem createEntities_syntaxError_abc :
    (ParseInt (goBytes "abc")).2 = some NumError.ErrSyntax ∧
    (ParseInt (goBytes "abc")).1 = 0 ∧
    (createEntities sampleStats freshWriter "abc" sampleWorld).w = freshWriter :=
  ⟨by decide,
   (createEntities_syntaxError sampleStats freshWriter "abc" sampleWorld (by decide)).1,
   (createEntities_syntaxError sampleStats freshWriter "abc" sampleWorld (by decide)).2.2.2⟩

/-- C3, as stated, fails at the count `"99999999999abc"`: the string is no
number, yet `ParseUint` reports the range error as soon as the digits read
exceed `4294967295`, before it reaches the letters; the amount is `2147483647`
and a body is written, while the count `"0"` writes none. -/
theorem createEntities_digits_then_letters :
    literalValue "99999999999abc" = none ∧
    ParseInt (goBytes "99999999999abc") = (2147483647, some NumError.ErrRange) ∧
    (createEntities sampleStats freshWriter "99999999999abc" sampleWorld).w.body =
      ["\"allocated: 85899345880 bytes\"\n"] ∧
    (createEntities sampleStats freshWriter "0" sampleWorld).w.body = [] := by
  decide

/-- C3, amended: with the count `"0"` the handler prints the diagnostic
`Error: amount was 0` and returns; it writes no body, sets no status and
prints no memory statistics. For every count string that is no base-10
literal and whose leading digits (after an optional sign) do not exceed
`4294967295`, the whole result is the one for `"0"`; for every count string
whose leading digits exceed `4294967295` it is not. -/
theorem createEntities_zero_nonNumeric (m : MemStats) (w : ResponseWriter) (σ : World) :
    createEntities m w "0" σ = zeroAmountResult w σ ∧
    (createEntities m w "0" σ).outcome = Outcome.returned ∧
    (createEntities m w "0" σ).w = w ∧
    (createEntities m w "0" σ).world.stdout =
      σ.stdout ++ ["called createEntities\n", "Creating data\n", "Error: amount was 0\n"] ∧
    (∀ count : String, literalValue count = none →
      decimalValue (leadingDigits count) ≤ 4294967295 →
      createEntities m w count σ = createEntities m w "0" σ) ∧
    (∀ count : String, 4294967295 < decimalValue (leadingDigits count) →
      createEntities m w count σ ≠ createEntities m w "0" σ) := by
  have hz : createEntities m w "0" σ = zeroAmountResult w σ :=
    createEntities_of_zero m w "0" σ (by decide)
  rw [hz]
  refine ⟨rfl, rfl, rfl, rfl, ?_, ?_⟩
  · intro count hlit hlead
    have hp := ParseInt_nonliteral hlit hlead
    exact createEntities_of_zero m w count σ (by rw [hp])
  · intro count hlead h
    have hamount := congrArg (fun r => r.locals.amount) h
    have hp := ParseInt_overflow hlead
    have hloc : (createEntities m w count σ).locals.amount = (ParseInt (goBytes count)).1 := by
      unfold createEntities
      simp only
      split
      · rfl
      · split <;> rfl
    simp only [hloc, hp, zeroAmountResult] at hamount
    split at hamount <;> omega

/-- C3, at the count `"abc"`: the result is the one for `"0"`. -/
theorem createEntities_abc_as_zero :
    literalValue "abc" = none ∧
    createEntities sampleStats freshWriter "abc" sampleWorld =
      createEntities sampleStats freshWriter "0" sampleWorld :=
  ⟨by decide,
   (createEntities_zero_nonNumeric sampleStats freshWriter sampleWorld).2.2.2.2.1 "abc"
     (by decide) (by decide)⟩

/-- C4, as stated, fails at the count `"-1"`: the handler does not return, it
panics in `make([]Entity, amount)`. It fails at `"-99999999999"` too: parsing
fails with a range error, the amount is `-2147483648`, not zero, and the
handler panics instead of taking the zero-amount early return. -/
theorem createEntities_minus_one_panics :
    (createEntities sampleStats freshWriter "-1" sampleWorld).outcome =
      Outcome.panicked "runtime error: makeslice: len out of range" ∧
    (ParseInt (goBytes "-99999999999")).2 = some NumError.ErrRange ∧
    (createEntities sampleStats freshWriter "-99999999999" sampleWorld).locals.amount =
      -2147483648 ∧
    (createEntities sampleStats freshWriter "-99999999999" sampleWorld).outcome =
      Outcome.panicked "runtime error: makeslice: len out of range" := by
  decide

/-- C4, amended: the handler returns normally exactly when the parsed amount is
not negative, so for every count string that does not begin with `-`; and
every parse failure that is a syntax error degrades to the zero-amount
early return. -/
theorem createEntities_returns_iff (m : MemStats) (w : ResponseWriter) (count : String)
    (σ : World) :
    ((createEntities m w count σ).outcome = Outcome.returned ↔
      0 ≤ (ParseInt (goBytes count)).1) ∧
    (isNegative count = false → (createEntities m w count σ).outcome = Outcome.returned) ∧
    ((ParseInt (goBytes count)).2 = some NumError.ErrSyntax →
      createEntities m w count σ = zeroAmountResult w σ) := by
  refine ⟨outcome_returned_iff m w count σ, ?_, ?_⟩
  · intro h
    exact (outcome_returned_iff m w count σ).mpr (amount_nonneg_of_not_negative h)
  · intro h
    exact createEntities_of_zero m w count σ (amount_of_syntaxError h)

/-- C4, at the counts `"7"` and `"x7"`. -/
theorem createEntities_returns_samples :
    (createEntities sampleStats freshWriter "7" sampleWorld).outcome = Outcome.returned ∧
    createEntities sampleStats freshWriter "x7" sampleWorld =
      zeroAmountResult freshWriter sampleWorld :=
  ⟨(createEntities_returns_iff sampleStats freshWriter "7" sampleWorld).2.1 (by decide),
   (createEntities_returns_iff sampleStats freshWriter "x7" sampleWorld).2.2 (by decide)⟩

/-- C5: for every count string that denotes a negative integer `v` within the
32-bit range, `ParseInt` yields `v` without error, the check `amount == 0`
does not fire (no diagnostic is printed), and `make([]Entity, amount)` panics
with the response writer untouched. -/
theorem createEntities_negative (m : MemStats) (w : ResponseWriter) (count : String) (σ : World)
    (v : Int) (hlit : literalValue count = some v) (hneg : v < 0) (hmin : -2147483648 ≤ v) :
    ParseInt (goBytes count) = (v, none) ∧
    (createEntities m w count σ).locals.amount = v ∧
    makeslice v = none ∧
    (createEntities m w count σ).outcome =
      Outcome.panicked "runtime error: makeslice: len out of range" ∧
    (createEntities m w count σ).w = w ∧
    (createEntities m w count σ).world.stdout =
      σ.stdout ++ ["called createEntities\n", "Creating data\n"] := by
  have hparse : ParseInt (goBytes count) = (v, none) :=
    ParseInt_literal_inRange hlit hmin (by omega)
  have h1 : (ParseInt (goBytes count)).1 < 0 := by rw [hparse]; exact hneg
  rw [createEntities_of_neg m w count σ h1, hparse]
  refine ⟨rfl, rfl, ?_, rfl, rfl, rfl⟩
  unfold makeslice
  rw [if_pos (Or.inl hneg)]

/-- C5, at the count `"-1"`. -/
theorem createEntities_negative_minus_one :
    literalValue "-1" = some (-1) ∧
    ParseInt (goBytes "-1") = (-1, none) ∧
    (createEntities sampleStats freshWriter "-1" sampleWorld).w = freshWriter :=
  ⟨by decide,
   (createEntities_negative sampleStats freshWriter "-1" sampleWorld (-1) (by decide) (by decide)
     (by decide)).1,
   (createEntities_negative sampleStats freshWriter "-1" sampleWorld (-1) (by decide) (by decide)
     (by decide)).2.2.2.2.1⟩

/-- C6: the byte count computed, the local variables, the outcome and what is
written to the response depend only on the count (and the writer handed in),
not on the prior state of the process, the package variable included; so the
same request issued a second time, on the state the first one left, computes
the same byte count and writes the same body. -/
theorem createEntities_idempotent (m1 m2 : MemStats) (w : ResponseWriter) (count : String)
    (σ1 σ2 : World) :
    (createEntities m1 w count σ1).locals.allocatedBytes =
      (createEntities m2 w count σ2).locals.allocatedBytes ∧
    (createEntities m1 w count σ1).w.body = (createEntities m2 w count σ2).w.body ∧
    (createEntities m1 w count σ1).outcome = (createEntities m2 w count σ2).outcome ∧
    (createEntities m2 w count (createEntities m1 w count σ1).world).locals.allocatedBytes =
      (createEntities m1 w count σ1).locals.allocatedBytes ∧
    (createEntities m2 w count (createEntities m1 w count σ1).world).w.body =
      (createEntities m1 w count σ1).w.body := by
  have h1 := createEntities_independent m1 m2 w count σ1 σ2
  have h2 := createEntities_independent m2 m1 w count (createEntities m1 w count σ1).world σ1
  refine ⟨?_, ?_, h1.2.2, ?_, ?_⟩
  · rw [h1.1]
  · rw [h1.2.1]
  · rw [h2.1]
  · rw [h2.2.1]

/-- C6, at the count `"5"` issued twice: `200` bytes both times. -/
theorem createEntities_twice_5 :
    (createEntities sampleStats freshWriter "5" sampleWorld).locals.allocatedBytes = some 200 ∧
    (createEntities sampleStats freshWriter "5"
      (createEntities sampleStats freshWriter "5" sampleWorld).world).locals.allocatedBytes =
      some 200 :=
  ⟨by decide,
   ((createEntities_idempotent sampleStats sampleStats freshWriter "5" sampleWorld
      sampleWorld).2.2.2.1).trans (by decide)⟩

/-- C7: for every unsigned 64-bit `b`, `bToMb b` is `b / 1024 / 1024`, that is the
floor of `b / 1048576`, and no division wraps around. -/
theorem bToMb_floor (b : Nat) (h : b < 2 ^ 64) :
    bToMb b = b / 1024 / 1024 ∧
    bToMb b = b / 1048576 ∧
    bToMb b * 1048576 ≤ b ∧
    b < (bToMb b + 1) * 1048576 ∧
    bToMb b < 2 ^ 64 := by
  unfold bToMb
  omega

/-- C7, at `b = 3000000` and at the largest `uint64`. -/
theorem bToMb_floor_samples :
    bToMb 3000000 = 2 ∧ bToMb (2 ^ 64 - 1) = 17592186044415 :=
  ⟨(bToMb_floor 3000000 (by decide)).2.1.trans (by decide),
   (bToMb_floor (2 ^ 64 - 1) (by decide)).2.1.trans (by decide)⟩

/-- C8: for every string `s`, `Reverse s` returns (without an index panic) the
string whose characters are those of `s` in reverse order: it has the same
length, and its character `i` is character `len - 1 - i` of `s`. -/
theorem Reverse_reverses (s : String) :
    Reverse s = some (String.mk s.data.reverse) ∧
    (String.mk s.data.reverse).length = s.length ∧
    ∀ i : Nat, i < s.length →
      (String.mk s.data.reverse).data[i]? = s.data[s.length - 1 - i]? := by
  refine ⟨?_, ?_, ?_⟩
  · unfold Reverse
    simp only [reverseLoop_reverse, Option.map_some']
  · show s.data.reverse.length = s.data.length
    exact List.length_reverse _
  · intro i hi
    exact List.getElem?_reverse hi

/-- C8, at `"Hello"`: the result is `"olleH"`. -/
theorem Reverse_Hello : Reverse "Hello" = some "olleH" :=
  (Reverse_reverses "Hello").1.trans (by decide)

/-- C9: for every count string that is a base-10 literal of value above
`2147483647`, `ParseInt` returns `2147483647` with a range error; the handler
does not take the zero-amount path: it allocates `2147483647` records,
computes `sizeofEntity * 2147483647 = 85899345880` bytes, the same for every
such count, and writes that in the body. -/
theorem createEntities_above_range (m : MemStats) (w : ResponseWriter) (count : String)
    (σ : World) (v : Int) (hlit : literalValue count = some v) (hbig : 2147483647 < v) :
    ParseInt (goBytes count) = (2147483647, some NumError.ErrRange) ∧
    (createEntities m w count σ).locals.amount = 2147483647 ∧
    (createEntities m w count σ).locals.entities =
      some (List.replicate 2147483647 Entity.zero) ∧
    (createEntities m w count σ).locals.allocatedBytes =
      some ((sizeofEntity : Int) * 2147483647) ∧
    (createEntities m w count σ).locals.allocatedBytes = some 85899345880 ∧
    (createEntities m w count σ).outcome = Outcome.returned ∧
    (createEntities m w count σ).w.body = w.body ++ ["\"allocated: 85899345880 bytes\"\n"] ∧
    createEntities m w count σ ≠ zeroAmountResult w σ := by
  have hparse := ParseInt_literal_above hlit hbig
  have h1 : 0 < (ParseInt (goBytes count)).1 := by rw [hparse]; decide
  have h2 : (ParseInt (goBytes count)).1 ≤ 2147483647 := by simp [hparse]
  rw [createEntities_of_pos m w count σ h1 h2, hparse]
  refine ⟨rfl, rfl, rfl, rfl, rfl, rfl, ?_, ?_⟩
  · simp only [Encode]
    congr 1
  · intro h
    have hamount := congrArg (fun r => r.locals.amount) h
    simp [zeroAmountResult] at hamount

/-- C9, at the count `"99999999999"`. -/
theorem createEntities_above_range_sample :
    literalValue "99999999999" = some 99999999999 ∧
    (createEntities sampleStats freshWriter "99999999999" sampleWorld).locals.allocatedBytes =
      some 85899345880 :=
  ⟨by decide,
   (createEntities_above_range sampleStats freshWriter "99999999999" sampleWorld 99999999999
     (by decide) (by decide)).2.2.2.2.1⟩

/-- C10: for every count string and every prior state, the package variable
`entities` is empty when the handler ends; the records it allocates are in
the local slice that shadows it, `amount` zero values, so the package
variable has length 0 even after a request with a positive count. -/
theorem createEntities_global_empty (m : MemStats) (w : ResponseWriter) (count : String)
    (σ : World) :
    (createEntities m w count σ).world.entities = [] ∧
    (createEntities m w count σ).world.entities.length = 0 ∧
    ∀ l : List Entity, (createEntities m w count σ).locals.entities = some l →
      0 < (createEntities m w count σ).locals.amount ∧
      l = List.replicate (createEntities m w count σ).locals.amount.toNat Entity.zero ∧
      ((l.length : Nat) : Int) = (createEntities m w count σ).locals.amount := by
  have h := createEntities_entities m w count σ
  refine ⟨h.1, by rw [h.1]; rfl, ?_⟩
  intro l hl
  obtain ⟨hpos, hrep⟩ := h.2 l hl
  refine ⟨hpos, hrep, ?_⟩
  rw [hrep, List.length_replicate]
  omega

/-- C10, at the count `"5"` on a state that holds one entity: five records in
the local slice, none in the package variable. -/
theorem createEntities_global_empty_5 :
    sampleWorld.entities.length = 1 ∧
    (createEntities sampleStats freshWriter "5" sampleWorld).locals.entities =
      some (List.replicate 5 Entity.zero) ∧
    (createEntities sampleStats freshWriter "5" sampleWorld).world.entities = [] :=
  ⟨by decide, by decide,
   (createEntities_global_empty sampleStats freshWriter "5" sampleWorld).1⟩

end MemoryPlayground
